import Mathlib

/-!
Verification development for the icon-distillery catalog and duplicate
detection engine.  The definitions below are shallow embeddings of the
Python sources under `scripts/`:

* `scripts/icon_duplicates.py`        — duplicate detection engine
* `scripts/icon_theme_processor.py`   — descriptor parser, context
  resolution, disk scanner, theme catalog
* `scripts/icon_build_check_icons.py` — inventory reconciliation
* `scripts/icon_build_check_contexts.py` — context manifest build/check
* `scripts/icon_build_check_symbolic.py` — symbolic tagging pass

Python dicts are modelled either as association lists (where iteration
order matters) or as functions into `Option` (where only the map matters,
matching Python dict equality which ignores insertion order); Python sets
become `Finset`; Python ints become `Int` (arbitrary precision in both);
`fatal_error` calls become `Except.error` values.
-/

namespace IconDistillery

/-- Association-list lookup used to model Python `dict[key]` access for
dicts represented positionally (first binding wins; dicts built without
key repetition, which we track with `Nodup` hypotheses). -/
def alookup {β : Type} : List (String × β) → String → Option β
  | [], _ => none
  | p :: rest, k => if p.1 = k then some p.2 else alookup rest k

/-- A successful lookup means the key occurs. -/
lemma mem_keys_of_alookup {β : Type} :
    ∀ {l : List (String × β)} {k : String} {v : β},
    alookup l k = some v → k ∈ l.map Prod.fst := by
  intro l
  induction l with
  | nil => intro k v h; cases h
  | cons p rest ih =>
    intro k v h
    rw [alookup] at h
    by_cases hk : p.1 = k
    · simp [← hk]
    · rw [if_neg hk] at h
      simp only [List.map_cons, List.mem_cons]
      exact Or.inr (ih h)

/-- A key that occurs looks up successfully. -/
lemma alookup_isSome_of_mem_keys {β : Type} :
    ∀ {l : List (String × β)} {k : String},
    k ∈ l.map Prod.fst → (alookup l k).isSome := by
  intro l
  induction l with
  | nil => intro k h; cases h
  | cons p rest ih =>
    intro k h
    rw [alookup]
    by_cases hk : p.1 = k
    · simp [hk]
    · rw [if_neg hk]
      simp only [List.map_cons, List.mem_cons] at h
      rcases h with h | h
      · exact absurd h.symm hk
      · exact ih h

/-- Lookup distributes over append, first list taking priority. -/
lemma alookup_append {β : Type} :
    ∀ (a b : List (String × β)) (k : String),
    alookup (a ++ b) k =
      match alookup a k with
      | some v => some v
      | none => alookup b k := by
  intro a
  induction a with
  | nil => intro b k; rfl
  | cons p rest ih =>
    intro b k
    simp only [List.cons_append, alookup]
    by_cases hk : p.1 = k
    · simp [hk]
    · simp only [if_neg hk]
      exact ih b k

/-- Lookup after a key-preserving per-entry rewrite. -/
lemma alookup_map_entry {β : Type} (g : String → β → β) :
    ∀ (l : List (String × β)) (k : String),
    alookup (l.map (fun p => (p.1, g p.1 p.2))) k = (alookup l k).map (g k) := by
  intro l
  induction l with
  | nil => intro k; rfl
  | cons p rest ih =>
    intro k
    simp only [List.map_cons, alookup]
    by_cases hk : p.1 = k
    · subst hk; simp
    · simp only [if_neg hk]
      exact ih k

/-! ## Duplicate detection engine (`scripts/icon_duplicates.py`)

The engine's inventory (`icons` in `main`, lines 129-159) maps an icon id
to a per-size dict holding, per size, the file's MD5 content hash (plus
path/symlink info that the signature computation ignores).  We model the
hashed inventory as an association list `iconId ↦ [(size, hash), ...]`. -/

/-- Per-icon size data: the `(size, hash)` pairs of `icons[icon_id]`
(`icons[icon_id][size]["hash"]` in the source). -/
abbrev SizeData := List (Int × String)

/-- Hashed inventory: `icons` dict of `icon_duplicates.main`. -/
abbrev Inventory := List (String × SizeData)

/-- Signature of one icon, from lines 174-178 of `icon_duplicates.py`:
`frozenset(d["hash"] for d in size_data.values())` — the set of content
hashes across all sizes, discarding the sizes themselves. -/
def iconSignature (sd : SizeData) : Finset String :=
  (sd.map Prod.snd).toFinset

/-- The `(icon_name, signature)` pairs in inventory order
(`icon_signatures` dict, lines 174-178). -/
def signaturePairs (inv : Inventory) : List (String × Finset String) :=
  inv.map (fun p => (p.1, iconSignature p.2))

/-- The distinct signatures: the keys of the `sig_to_icons` defaultdict
(lines 182-184; `dedup` lists them in a different order than Python's
insertion order, which no property below depends on). -/
def distinctSignatures (inv : Inventory) : List (Finset String) :=
  ((signaturePairs inv).map Prod.snd).dedup

/-- All icon names carrying signature `s`, in inventory order: the value
`sig_to_icons[s]` (lines 182-184). -/
def signatureClass (inv : Inventory) (s : Finset String) : List String :=
  ((signaturePairs inv).filter (fun p => p.2 = s)).map Prod.fst

/-- Full-duplicate groups, lines 193-198: for each signature, the group of
icons sharing it; only groups with `len(icon_names) > 1` are reported. -/
def fullDupGroups (inv : Inventory) : List (List String) :=
  ((distinctSignatures inv).map (signatureClass inv)).filter
    (fun g => 1 < g.length)

/-- A list containing two distinct elements has at least two elements. -/
lemma two_le_length_of_mem_ne {α : Type} {l : List α} {a b : α}
    (ha : a ∈ l) (hb : b ∈ l) (hne : a ≠ b) : 2 ≤ l.length := by
  match l with
  | [] => cases ha
  | [x] =>
    simp only [List.mem_singleton] at ha hb
    exact absurd (ha.trans hb.symm) hne
  | x :: y :: t => simp only [List.length_cons]; omega

/-- Membership in a signature class is exactly having that signature. -/
lemma mem_signatureClass {inv : Inventory} {s : Finset String} {name : String} :
    name ∈ signatureClass inv s ↔ ∃ sd, (name, sd) ∈ inv ∧ iconSignature sd = s := by
  constructor
  · intro h
    obtain ⟨q, hq, hfst⟩ := List.mem_map.mp h
    obtain ⟨hq1, hq2⟩ := List.mem_filter.mp hq
    obtain ⟨r, hr, hrq⟩ := List.mem_map.mp hq1
    subst hrq
    simp only [decide_eq_true_eq] at hq2
    simp only at hfst
    refine ⟨r.2, ?_, hq2⟩
    rw [← hfst, Prod.mk.eta]
    exact hr
  · rintro ⟨sd, hin, hsig⟩
    apply List.mem_map.mpr
    refine ⟨(name, iconSignature sd), ?_, rfl⟩
    apply List.mem_filter.mpr
    exact ⟨List.mem_map.mpr ⟨(name, sd), hin, rfl⟩, by simp [hsig]⟩

/-- A signature occurring in the inventory appears among the distinct
signatures. -/
lemma mem_distinctSignatures {inv : Inventory} {name : String} {sd : SizeData}
    (h : (name, sd) ∈ inv) : iconSignature sd ∈ distinctSignatures inv := by
  apply List.mem_dedup.mpr
  exact List.mem_map.mpr
    ⟨(name, iconSignature sd), List.mem_map.mpr ⟨(name, sd), h, rfl⟩, rfl⟩

/-- The reported groups are exactly the signature classes of at least two
members. -/
lemma mem_fullDupGroups {inv : Inventory} {g : List String} :
    g ∈ fullDupGroups inv ↔ ∃ s, g = signatureClass inv s ∧ 2 ≤ g.length := by
  simp only [fullDupGroups, List.mem_filter, List.mem_map, decide_eq_true_eq]
  constructor
  · rintro ⟨⟨s, _, hclass⟩, hlen⟩
    exact ⟨s, hclass.symm, hlen⟩
  · rintro ⟨s, hclass, hlen⟩
    refine ⟨⟨s, ?_, hclass.symm⟩, by omega⟩
    -- the class is nonempty, so s occurs in the inventory
    have hne : g ≠ [] := by
      intro hnil; rw [hnil] at hlen; simp at hlen
    obtain ⟨name, hmem⟩ := List.exists_mem_of_ne_nil g hne
    rw [hclass] at hmem
    obtain ⟨sd, hin, hsig⟩ := mem_signatureClass.mp hmem
    simpa [hsig] using mem_distinctSignatures hin

/-- C1: for every hashed inventory, the engine assigns each icon a
signature equal to the set of the hashes of its files across all sizes
(any two per-size hash tables with the same hash set get the same
signature, so the signature is independent of the sizes and of ordering),
membership in the class of a signature is exactly carrying that signature
(the classes partition the identifiers by equal signature), and the
reported full-duplicate groups are exactly the classes with at least two
members. -/
theorem duplicates_signature_grouping_correct (inv : Inventory) :
    (∀ sd sd' : SizeData,
        (sd.map Prod.snd).toFinset = (sd'.map Prod.snd).toFinset →
        iconSignature sd = iconSignature sd')
    ∧ (∀ name sd, (name, sd) ∈ inv → iconSignature sd = (sd.map Prod.snd).toFinset)
    ∧ (∀ s name, name ∈ signatureClass inv s ↔
        ∃ sd, (name, sd) ∈ inv ∧ iconSignature sd = s)
    ∧ (∀ g, g ∈ fullDupGroups inv ↔
        ∃ s, g = signatureClass inv s ∧ 2 ≤ g.length) := by
  refine ⟨fun sd sd' h => ?_, fun _ _ _ => rfl,
    fun _ _ => mem_signatureClass, fun _ => mem_fullDupGroups⟩
  simpa [iconSignature] using h

/-- C10: because the signature is a set of hashes, repeated identical
content across sizes collapses; two icons whose hash sets coincide land in
one full-duplicate group even when their numbers of sizes differ. -/
theorem collapsed_signature_groups_ignore_size_count
    (inv : Inventory) (a b : String) (sda sdb : SizeData)
    (ha : (a, sda) ∈ inv) (hb : (b, sdb) ∈ inv) (hne : a ≠ b)
    (_hcount : (sda.map Prod.fst).toFinset.card ≠ (sdb.map Prod.fst).toFinset.card)
    (hsig : iconSignature sda = iconSignature sdb) :
    ∃ g ∈ fullDupGroups inv, a ∈ g ∧ b ∈ g := by
  refine ⟨signatureClass inv (iconSignature sda), ?_, ?_, ?_⟩
  · refine mem_fullDupGroups.mpr ⟨iconSignature sda, rfl, ?_⟩
    have hma : a ∈ signatureClass inv (iconSignature sda) :=
      mem_signatureClass.mpr ⟨sda, ha, rfl⟩
    have hmb : b ∈ signatureClass inv (iconSignature sda) :=
      mem_signatureClass.mpr ⟨sdb, hb, hsig.symm⟩
    exact two_le_length_of_mem_ne hma hmb hne
  · exact mem_signatureClass.mpr ⟨sda, ha, rfl⟩
  · exact mem_signatureClass.mpr ⟨sdb, hb, hsig.symm⟩

/-- Witness for C10: an icon carrying identical bytes (hash "h1") at sizes
16 and 32 is grouped as a full duplicate of an icon that has only size 16
with that same content, although their size counts differ (2 versus 1). -/
theorem collapsed_signature_groups_ignore_size_count_witness :
    ∃ g ∈ fullDupGroups
        [("theme_apps_clock", [((16 : Int), "h1"), (32, "h1")]),
         ("theme_apps_alarm", [((16 : Int), "h1")])],
      "theme_apps_clock" ∈ g ∧ "theme_apps_alarm" ∈ g :=
  collapsed_signature_groups_ignore_size_count
    [("theme_apps_clock", [((16 : Int), "h1"), (32, "h1")]),
     ("theme_apps_alarm", [((16 : Int), "h1")])]
    "theme_apps_clock" "theme_apps_alarm"
    [((16 : Int), "h1"), (32, "h1")] [((16 : Int), "h1")]
    (by decide) (by decide) (by decide) (by decide) (by decide)

/-! ## Done-primary flag (`icon_duplicates.py`, lines 374-468)

For an icon in the partial-duplicates section, `all_matches` maps each
other icon sharing at least one content hash to the set of THAT icon's
sizes whose hash occurs among the current icon's hashes (lines 374-381;
`hash_to_other_icons` restricts to hashes occurring under at least two
distinct identifiers, which holds automatically for a hash the current
icon shares with a different icon).  The `[DONE-PRIMARY]` flag (lines
449-468) then requires a nonempty `duplicates` list, every listed icon's
`duplicate_of` equal to the current icon, and `expected_dups` — the
matches whose matched-size count equals the current icon's size count —
to be a subset of the list. -/

/-- Number of sizes of an icon: `len(sizes)` where
`sizes = sorted(size_data.keys())` (dict keys, hence distinct). -/
def numSizes (sd : SizeData) : Nat :=
  (sd.map Prod.fst).dedup.length

/-- The value `all_matches[other]` of lines 374-381: the other icon's
sizes whose hash equals one of the current icon's hashes. -/
def matchedSizes (ours theirs : SizeData) : Finset Int :=
  ((theirs.filter (fun p => ours.any (fun q => q.2 = p.2))).map Prod.fst).toFinset

/-- The set `expected_dups` of lines 454-458: other icons present in
`all_matches` (nonempty matched-size set) whose matched-size count equals
the current icon's size count. -/
def expectedDups (inv : Inventory) (name : String) (sd : SizeData) : List String :=
  (inv.filter (fun p => decide (p.1 ≠ name ∧ matchedSizes sd p.2 ≠ ∅ ∧
    (matchedSizes sd p.2).card = numSizes sd))).map Prod.fst

/-- The `is_done_primary` computation of lines 450-466: nonempty
`duplicates` list, every listed icon pointing back via `duplicate_of`,
and `expected_dups <= set(icon_dups)`. -/
def isDonePrimary (inv : Inventory) (name : String) (sd : SizeData)
    (dups : List String) (dupOf : String → Option String) : Bool :=
  !dups.isEmpty &&
  dups.all (fun d => dupOf d = some name) &&
  (expectedDups inv name sd).all (fun e => decide (e ∈ dups))

/-- Spec-side predicate, following the claim's words: the `duplicates`
list exactly equals the set of (other) icons that share a hash match at
every one of the icon's sizes, and every listed duplicate points back. -/
def donePrimarySpec (inv : Inventory) (name : String) (sd : SizeData)
    (dups : List String) (dupOf : String → Option String) : Prop :=
  dups.toFinset =
    ((inv.filter (fun p => decide (p.1 ≠ name) &&
        sd.all (fun q => p.2.any (fun r => r.2 = q.2)))).map Prod.fst).toFinset
  ∧ ∀ d ∈ dups, dupOf d = some name

/-- A list's `isEmpty` is `false` exactly when it is not nil. -/
lemma isEmpty_false_iff {α : Type} (l : List α) : l.isEmpty = false ↔ l ≠ [] := by
  cases l <;> simp

/-- Membership in `expectedDups`, unfolded. -/
lemma mem_expectedDups {inv : Inventory} {name e : String} {sd : SizeData} :
    e ∈ expectedDups inv name sd ↔
      ∃ sd', (e, sd') ∈ inv ∧ e ≠ name ∧ matchedSizes sd sd' ≠ ∅ ∧
        (matchedSizes sd sd').card = numSizes sd := by
  constructor
  · intro h
    obtain ⟨q, hq, hfst⟩ := List.mem_map.mp h
    obtain ⟨hq1, hq2⟩ := List.mem_filter.mp hq
    simp only [decide_eq_true_eq] at hq2
    subst hfst
    exact ⟨q.2, by simpa using hq1, hq2⟩
  · rintro ⟨sd', hin, hcond⟩
    apply List.mem_map.mpr
    refine ⟨(e, sd'), ?_, rfl⟩
    exact List.mem_filter.mpr ⟨hin, by simpa using hcond⟩

/-- C2 counterexample inventory: icon A has hashes h1 (size 16) and h2
(size 32); icon B shares only h1; icon C shares nothing. -/
def ce2Inv : Inventory :=
  [("A", [((16 : Int), "h1"), (32, "h2")]),
   ("B", [((16 : Int), "h1")]),
   ("C", [((48 : Int), "h3")])]

/-- C2 counterexample catalog back-references: B and C both point to A. -/
def ce2DupOf : String → Option String :=
  fun s => if s = "B" ∨ s = "C" then some "A" else none

/-- C2 counterexample: with A's `duplicates` list `["B", "C"]`, the code
flags `[DONE-PRIMARY]` (its `expected_dups` is empty, and subset rather
than equality is checked), although the list does not equal the set of
icons sharing a hash match at every one of A's sizes (that set is empty:
B matches h1 but not h2, C matches nothing).  This refutes the claimed
"if and only if". -/
theorem done_primary_not_exact_equality_counterexample :
    isDonePrimary ce2Inv "A" [((16 : Int), "h1"), (32, "h2")] ["B", "C"] ce2DupOf = true
    ∧ ¬ donePrimarySpec ce2Inv "A" [((16 : Int), "h1"), (32, "h2")] ["B", "C"] ce2DupOf := by
  constructor
  · decide
  · intro h
    obtain ⟨heq, _⟩ := h
    revert heq
    decide

/-- C2 amended: an icon's `duplicates` list is flagged `[DONE-PRIMARY]`
if and only if the list is nonempty, every listed icon's `duplicate_of`
points back to the icon, and the list contains (as a superset, not
necessarily equals) every other icon whose set of hash-matched sizes is
nonempty and counts as many elements as the icon has sizes. -/
theorem done_primary_flag_characterization
    (inv : Inventory) (name : String) (sd : SizeData)
    (dups : List String) (dupOf : String → Option String) :
    isDonePrimary inv name sd dups dupOf = true ↔
      dups ≠ [] ∧ (∀ d ∈ dups, dupOf d = some name) ∧
      (∀ other sd', (other, sd') ∈ inv → other ≠ name →
        matchedSizes sd sd' ≠ ∅ →
        (matchedSizes sd sd').card = numSizes sd → other ∈ dups) := by
  simp only [isDonePrimary, Bool.and_eq_true, Bool.not_eq_true',
    isEmpty_false_iff, List.all_eq_true, decide_eq_true_eq]
  constructor
  · rintro ⟨⟨hne, hback⟩, hsub⟩
    refine ⟨hne, fun d hd => ?_, fun other sd' hin hon hne' hcard => ?_⟩
    · have := hback d hd
      simpa using this
    · exact hsub other (mem_expectedDups.mpr ⟨sd', hin, hon, hne', hcard⟩)
  · rintro ⟨hne, hback, hsub⟩
    refine ⟨⟨hne, fun d hd => by simpa using hback d hd⟩, fun e he => ?_⟩
    obtain ⟨sd', hin, hon, hne', hcard⟩ := mem_expectedDups.mp he
    exact hsub e sd' hin hon hne' hcard

/-! ## ThemeCatalog subscript access (`icon_theme_processor.py`, lines
437-523; `icon_duplicates.py` line 81; `icon_build_check_symbolic.py`
line 72)

`ThemeCatalog` derives from `object` and its class body defines only the
methods listed below; in particular it defines no `__getitem__`, so a
Python subscript expression `catalog[...]` on an instance raises
`TypeError` before evaluating anything else.  Both scripts perform that
subscript immediately after the argument-count check and before any
scanning or printing of the report. -/

/-- The method names defined in the body of class `ThemeCatalog`
(`icon_theme_processor.py`, lines 437-523). -/
def themeCatalogMethods : List String :=
  ["__init__", "get_theme", "theme_ids", "catalog_path", "print_available"]

/-- Whether `ThemeCatalog` supports subscripting: Python resolves
`catalog[key]` through a `__getitem__` defined on the class. -/
def themeCatalogSubscriptable : Bool :=
  themeCatalogMethods.contains "__getitem__"

/-- Outcome of running one of the scripts' `main`. -/
inductive ScriptOutcome where
  | usageExit
  | typeError
  | completed
deriving DecidableEq, Repr

/-- Result of a script run: the outcome, and whatever scan/report lines
were printed before it ended. -/
structure ScriptRun where
  outcome : ScriptOutcome
  reportOutput : List String
deriving DecidableEq, Repr

/-- Model of `icon_duplicates.main` (lines 74-85): after constructing the
catalog, a missing theme argument exits via usage; otherwise the theme
lookup `catalog[sys.argv[1]]` (line 81) runs before the scan begins.
`scanReport` stands for whatever a completed run would print. -/
def iconDuplicatesRun (argv : List String) (scanReport : List String) : ScriptRun :=
  if argv.length < 2 then ⟨.usageExit, []⟩
  else if themeCatalogSubscriptable then ⟨.completed, scanReport⟩
  else ⟨.typeError, []⟩

/-- Model of `icon_build_check_symbolic.main` (lines 65-74): identical
shape; the lookup `catalog[sys.argv[1]]` (line 72) precedes all output. -/
def iconBuildCheckSymbolicRun (argv : List String) (scanReport : List String) : ScriptRun :=
  if argv.length < 2 then ⟨.usageExit, []⟩
  else if themeCatalogSubscriptable then ⟨.completed, scanReport⟩
  else ⟨.typeError, []⟩

/-- C3: `ThemeCatalog` defines no `__getitem__` (theme access is only
through `get_theme`), so every invocation of `icon_duplicates.py` or
`icon_build_check_symbolic.py` with a theme argument raises `TypeError`
at the theme lookup, before any scanning or report output. -/
theorem subscript_lookup_always_type_errors
    (argv : List String) (scanReport : List String) (h : 2 ≤ argv.length) :
    themeCatalogSubscriptable = false
    ∧ iconDuplicatesRun argv scanReport = ⟨.typeError, []⟩
    ∧ iconBuildCheckSymbolicRun argv scanReport = ⟨.typeError, []⟩ := by
  have hlt : ¬ argv.length < 2 := by omega
  refine ⟨by decide, ?_, ?_⟩ <;>
    simp [iconDuplicatesRun, iconBuildCheckSymbolicRun, hlt,
      themeCatalogSubscriptable, themeCatalogMethods]

/-- Witness for C3 at the concrete invocation
`python scripts/icon_duplicates.py oxygen`. -/
theorem subscript_lookup_always_type_errors_witness :
    themeCatalogSubscriptable = false
    ∧ iconDuplicatesRun ["icon_duplicates.py", "oxygen"] [] = ⟨.typeError, []⟩
    ∧ iconBuildCheckSymbolicRun ["icon_duplicates.py", "oxygen"] [] = ⟨.typeError, []⟩ :=
  subscript_lookup_always_type_errors ["icon_duplicates.py", "oxygen"] [] (by decide)

/-! ## Disk scanner file collection (`icon_theme_processor.py`,
`Theme.scan_directory`, lines 289-308)

The scanner drives `os.walk`, pruning every subdirectory that is a
symbolic link (`dirnames[:] = [d for d in dirnames if not islink(...)]`,
so such directories are never descended into), keeping files whose
lowercased name ends in one of `ICON_EXTENSIONS` and which are not
themselves symbolic links.  We model the filesystem as a rose tree whose
nodes carry a symlink flag, and the walk as a recursive collection; the
claimly relevant output is the set of collected paths (segment lists
relative to the theme root). -/

/-- A filesystem entry: a file or a directory, each possibly a symbolic
link, directories with their children. -/
inductive FSEntry where
  | file (name : String) (isLink : Bool)
  | dir (name : String) (isLink : Bool) (children : List FSEntry)

/-- Extension filter of `scan_directory` line 305:
`fn.lower().endswith(ICON_EXTENSIONS)` with
`ICON_EXTENSIONS = (".svg", ".svgz", ".png")`. -/
def hasIconExt (n : String) : Bool :=
  [".svg", ".svgz", ".png"].any (fun e => n.toLower.endsWith e)

mutual

/-- Files collected from one entry below path `pfx`: a non-link file with
an icon extension is collected (lines 304-308); a symlink directory is
pruned without descending (lines 302-303); a real directory contributes
its children's collections. -/
def collectEntry (pfx : List String) : FSEntry → List (List String)
  | .file n l => if !l && hasIconExt n then [pfx ++ [n]] else []
  | .dir n l cs => if l then [] else collectList (pfx ++ [n]) cs

/-- Files collected from a list of sibling entries. -/
def collectList (pfx : List String) : List FSEntry → List (List String)
  | [] => []
  | e :: es => collectEntry pfx e ++ collectList pfx es

end

/-- The `all_files` collection of `scan_directory` for a theme root with
the given top-level entries, as root-relative segment paths. -/
def scanTreeFiles (root : List FSEntry) : List (List String) :=
  collectList [] root

/-- A path resolves cleanly in a filesystem: every directory segment on
it is a real (non-symlink) directory and the final segment is a real
(non-symlink) file. -/
def cleanPath : List FSEntry → List String → Bool
  | _, [] => false
  | es, [n] => es.any (fun e =>
      match e with
      | .file m l => decide (m = n) && !l
      | .dir _ _ _ => false)
  | es, n :: rest => es.any (fun e =>
      match e with
      | .dir m l cs => decide (m = n) && !l && cleanPath cs rest
      | .file _ _ => false)

/-- A path clean in a tail of entries is clean in the whole list. -/
lemma cleanPath_cons_of_tail {es : List FSEntry} {e : FSEntry}
    {q : List String} (h : cleanPath es q = true) :
    cleanPath (e :: es) q = true := by
  match q with
  | [] => simp [cleanPath] at h
  | [n] =>
    simp only [cleanPath, List.any_cons, Bool.or_eq_true] at h ⊢
    exact Or.inr h
  | n :: m :: rest =>
    simp only [cleanPath, List.any_cons, Bool.or_eq_true] at h ⊢
    exact Or.inr h

/-- Every path collected by the walk resolves cleanly: no directory on it
is a symbolic link, and the file itself is not a symbolic link. -/
lemma collectList_clean (n : Nat) : ∀ (es : List FSEntry), sizeOf es ≤ n →
    ∀ (pfx p : List String), p ∈ collectList pfx es →
    ∃ q, q ≠ [] ∧ p = pfx ++ q ∧ cleanPath es q = true := by
  induction n with
  | zero =>
    intro es hs
    exfalso
    cases es <;> simp_all
  | succ n ih =>
    intro es hs pfx p hp
    match es with
    | [] => simp [collectList] at hp
    | e :: es' =>
      simp only [collectList, List.mem_append] at hp
      rcases hp with hp | hp
      · -- collected from the head entry
        match e with
        | .file m l =>
          simp only [collectEntry] at hp
          by_cases hc : (!l && hasIconExt m) = true
          · rw [if_pos hc] at hp
            simp only [List.mem_singleton] at hp
            subst hp
            refine ⟨[m], by simp, rfl, ?_⟩
            simp only [cleanPath, List.any_cons, Bool.or_eq_true]
            left
            simp only [Bool.and_eq_true, Bool.not_eq_true'] at hc ⊢
            simp [hc.1]
          · rw [if_neg hc] at hp
            cases hp
        | .dir m l cs =>
          simp only [collectEntry] at hp
          by_cases hl : l = true
          · rw [if_pos hl] at hp
            cases hp
          · rw [if_neg hl] at hp
            have hl' : l = false := by simpa using hl
            have hsz : sizeOf cs ≤ n := by
              have h1 := List.cons.sizeOf_spec (FSEntry.dir m l cs) es'
              have h2 := FSEntry.dir.sizeOf_spec m l cs
              omega
            obtain ⟨q, hqne, hqp, hqc⟩ := ih cs hsz (pfx ++ [m]) p hp
            refine ⟨m :: q, by simp, by simpa using hqp, ?_⟩
            match q, hqne with
            | a :: q', _ =>
              simp only [cleanPath, List.any_cons, Bool.or_eq_true]
              left
              simp [hl', hqc]
      · -- collected from the tail
        have hsz : sizeOf es' ≤ n := by
          have h1 := List.cons.sizeOf_spec e es'
          have h2 : 0 < sizeOf e := by cases e <;> simp
          omega
        obtain ⟨q, hqne, hqp, hqc⟩ := ih es' hsz pfx p hp
        exact ⟨q, hqne, hqp, cleanPath_cons_of_tail hqc⟩

/-- A tree whose only matching icon files lie inside a symlinked
subdirectory: the scan must discover nothing from within it. -/
def symlinkedSubdirTree : List FSEntry :=
  [FSEntry.dir "16x16" false
    [FSEntry.dir "apps" true
      [FSEntry.file "clock.png" false, FSEntry.file "alarm.svg" false]]]

/-- C5: the disk scanner never descends into a subdirectory reached via a
symbolic link (such a directory contributes no files at all), never
counts a file that is itself a symbolic link, every discovered path
resolves through non-symlink directories to a non-symlink file, and the
test tree whose only matching icons lie inside a symlinked subdirectory
yields zero discoveries. -/
theorem scan_directory_excludes_symlinks :
    (∀ (root : List FSEntry) (p : List String),
        p ∈ scanTreeFiles root → cleanPath root p = true)
    ∧ (∀ (pfx : List String) (name : String) (cs : List FSEntry),
        collectEntry pfx (FSEntry.dir name true cs) = [])
    ∧ (∀ (pfx : List String) (name : String),
        collectEntry pfx (FSEntry.file name true) = [])
    ∧ scanTreeFiles symlinkedSubdirTree = [] := by
  refine ⟨fun root p hp => ?_, fun pfx name cs => rfl, fun pfx name => rfl, rfl⟩
  obtain ⟨q, _, hqp, hqc⟩ :=
    collectList_clean (sizeOf root) root (le_refl _) [] p hp
  simpa [hqp] using hqc

/-! ## Theme descriptor index (`icon_theme_processor.py`,
`Theme._load_index`, lines 127-175)

A descriptor (`index.theme`) is a sectioned key-value file.  We model it
after `configparser` has done its work: a flag for the presence of the
`[Icon Theme]` section, the directory entries declared by `Directories`
and `ScaledDirectories` (already split and stripped), and the per-section
values with `int()` conversion already applied to the numeric fields. -/

/-- One directory section of the descriptor, fields as declared
(`None` models an absent key). -/
structure RawSection where
  size : Option Int
  scale : Option Int
  context : Option String
  type : Option String
  min_size : Option Int
  max_size : Option Int
deriving DecidableEq, Repr

/-- A parsed descriptor file. -/
structure Descriptor where
  hasIconThemeSection : Bool
  dirEntries : List String
  sections : List (String × RawSection)
deriving DecidableEq, Repr

/-- One entry of the constructed `DirectoryIndex` (`dir_map` values,
lines 161-169). -/
structure DirMeta where
  size : Int
  scale : Int
  effective_size : Int
  xdg_context : Option String
  type : String
  min_size : Option Int
  max_size : Option Int
deriving DecidableEq, Repr

/-- Errors raised via `fatal_error` during descriptor parsing
(`MalformedDescriptor` in the spec's taxonomy). -/
inductive DescriptorError where
  | missingFile
  | noIconThemeSection
  | noDirectoryEntries
deriving DecidableEq, Repr

/-- Python `Context` lookup: `section.get("Context") or None` maps an
absent or empty string to `None`. -/
def normalizeContext (c : Option String) : Option String :=
  match c with
  | none => none
  | some s => if s.isEmpty then none else some s

/-- Builds one `dir_map` entry from a section (lines 152-169):
`Size` defaults to 0, `Scale` defaults to 1,
`effective_size = size * scale`, `Type` defaults to "Threshold". -/
def buildDirMeta (sec : RawSection) : DirMeta :=
  let size := sec.size.getD 0
  let scale := sec.scale.getD 1
  { size := size
    scale := scale
    effective_size := size * scale
    xdg_context := normalizeContext sec.context
    type := sec.type.getD "Threshold"
    min_size := sec.min_size
    max_size := sec.max_size }

/-- The `_load_index` parse (lines 127-175): fatal when the `[Icon
Theme]` section is absent; declared directories missing a matching
section are silently skipped; fatal when no directory entry resolves. -/
def loadIndexDirMap (d : Descriptor) : List (String × DirMeta) :=
  d.dirEntries.filterMap (fun entry =>
    match alookup d.sections entry with
    | some sec => some (entry, buildDirMeta sec)
    | none => none)

/-- The fatal-error structure of `_load_index`: no `[Icon Theme]`
section, or zero resolvable directory entries. -/
def loadIndex (d : Descriptor) : Except DescriptorError (List (String × DirMeta)) :=
  if !d.hasIconThemeSection then .error .noIconThemeSection
  else if (loadIndexDirMap d).isEmpty then .error .noDirectoryEntries
  else .ok (loadIndexDirMap d)

/-! ## Context manifest (`icon_build_check_contexts.py` lines 29-56,
`icon_theme_processor.py` lines 177-194) -/

/-- One value of the contexts manifest (`contexts.json`): raw XDG context
backing value and display label (`None` models an absent key). -/
structure CtxInfo where
  xdg_context : Option String
  context_label : Option String
deriving DecidableEq, Repr

/-- The override table `_DEFAULT_CONTEXT_IDS` applied after lowercasing
(`icon_build_check_contexts.py`, lines 29-31). -/
def defaultContextIds : List (String × String) :=
  [("applications", "apps")]

/-- Python `_DEFAULT_CONTEXT_IDS.get(cid, cid)`. -/
def applyContextOverride (s : String) : String :=
  ((defaultContextIds.find? (fun p => p.1 = s)).map Prod.snd).getD s

/-- Accumulating pass of `build_contexts_from_index` (lines 43-55):
skip entries without a `Context=`; derive the internal id by lowercasing
plus override; first occurrence of an id wins. -/
def buildContextsAux : List (String × DirMeta) → List (String × CtxInfo) →
    List (String × CtxInfo)
  | [], acc => acc
  | p :: rest, acc =>
    match p.2.xdg_context with
    | none => buildContextsAux rest acc
    | some xdg =>
      if (acc.find? (fun q => q.1 = applyContextOverride xdg.toLower)).isSome then
        buildContextsAux rest acc
      else
        buildContextsAux rest
          (acc ++ [(applyContextOverride xdg.toLower, ⟨some xdg, some xdg⟩)])

/-- `build_contexts_from_index` (lines 34-56), final
`dict(sorted(contexts.items()))` modelled by a stable sort on keys. -/
def buildContextsFromIndex (dirMap : List (String × DirMeta)) :
    List (String × CtxInfo) :=
  List.insertionSort (fun a b : String × CtxInfo => a.1 ≤ b.1)
    (buildContextsAux dirMap [])

/-- Errors raised via `fatal_error` in `_get_internal_context_id`
(lines 177-194); `unknownContext` is the spec's `UnknownContext`. -/
inductive ContextError where
  | missingContexts
  | missingXdg (ctxId : String)
  | unknownContext (xdg : String)
deriving DecidableEq, Repr

/-- Builds the `_xdg_to_internal` reverse map (lines 183-190): every
context entry must carry a non-falsy `xdg_context`, and a later entry
with the same raw context overwrites an earlier one. -/
def buildXdgMap : List (String × CtxInfo) → (String → Option String) →
    Except ContextError (String → Option String)
  | [], f => .ok f
  | p :: rest, f =>
    match p.2.xdg_context with
    | none => .error (.missingXdg p.1)
    | some x =>
      if x.isEmpty then .error (.missingXdg p.1)
      else buildXdgMap rest (fun y => if y = x then some p.1 else f y)

/-- `_get_internal_context_id` (lines 177-194): fatal when the contexts
manifest is missing or empty; otherwise a straight lookup in the reverse
map, fatal (`UnknownContext`) when the raw context is absent. -/
def getInternalContextId (contexts : Option (List (String × CtxInfo)))
    (xdg : String) : Except ContextError String :=
  match contexts with
  | none => .error .missingContexts
  | some cs =>
    if cs.isEmpty then .error .missingContexts
    else
      match buildXdgMap cs (fun _ => none) with
      | .error e => .error e
      | .ok m =>
        match m xdg with
        | some cid => .ok cid
        | none => .error (.unknownContext xdg)

/-- Keys produced by the accumulating pass are either already in the
accumulator or derived by lowercasing-plus-override from some entry. -/
lemma buildContextsAux_mem {dm : List (String × DirMeta)} :
    ∀ {acc : List (String × CtxInfo)} {key : String} {info : CtxInfo},
    (key, info) ∈ buildContextsAux dm acc →
    (key, info) ∈ acc ∨
      ∃ dir meta xdg, (dir, meta) ∈ dm ∧ meta.xdg_context = some xdg ∧
        key = applyContextOverride xdg.toLower ∧
        info = ⟨some xdg, some xdg⟩ := by
  induction dm with
  | nil => intro acc key info h; exact Or.inl h
  | cons p rest ih =>
    intro acc key info h
    rw [buildContextsAux] at h
    split at h
    · -- entry without Context=
      rcases ih h with h' | ⟨dir, meta, xdg, hmem, hxd, hkey, hinfo⟩
      · exact Or.inl h'
      · exact Or.inr ⟨dir, meta, xdg, List.mem_cons_of_mem _ hmem, hxd, hkey, hinfo⟩
    · rename_i xdg hx
      split at h
      · rcases ih h with h' | ⟨dir, meta, x, hmem, hxd, hkey, hinfo⟩
        · exact Or.inl h'
        · exact Or.inr ⟨dir, meta, x, List.mem_cons_of_mem _ hmem, hxd, hkey, hinfo⟩
      · rcases ih h with h' | ⟨dir, meta, x, hmem, hxd, hkey, hinfo⟩
        · rcases List.mem_append.mp h' with h'' | h''
          · exact Or.inl h''
          · simp only [List.mem_singleton, Prod.mk.injEq] at h''
            exact Or.inr ⟨p.1, p.2, xdg, by simp [Prod.mk.eta], hx, h''.1, h''.2⟩
        · exact Or.inr ⟨dir, meta, x, List.mem_cons_of_mem _ hmem, hxd, hkey, hinfo⟩

/-- A binding in the reverse map comes from some context entry with that
raw context (no binding is invented). -/
lemma buildXdgMap_lookup : ∀ (cs : List (String × CtxInfo))
    (f g : String → Option String), buildXdgMap cs f = .ok g →
    ∀ xdg cid, g xdg = some cid →
      (∃ info, (cid, info) ∈ cs ∧ info.xdg_context = some xdg) ∨ f xdg = some cid := by
  intro cs
  induction cs with
  | nil =>
    intro f g h xdg cid hg
    simp only [buildXdgMap, Except.ok.injEq] at h
    subst h
    exact Or.inr hg
  | cons p rest ih =>
    intro f g h xdg cid hg
    rw [buildXdgMap] at h
    split at h
    · cases h
    · rename_i x hx
      split at h
      · cases h
      · rcases ih _ _ h xdg cid hg with ⟨info, hmem, hinfo⟩ | hf
        · exact Or.inl ⟨info, List.mem_cons_of_mem _ hmem, hinfo⟩
        · by_cases hxx : xdg = x
          · subst hxx
            simp at hf
            refine Or.inl ⟨p.2, ?_, hx⟩
            rw [← hf, Prod.mk.eta]
            exact List.mem_cons_self _ _
          · rw [if_neg hxx] at hf
            exact Or.inr hf

/-- If no context entry carries the raw context, the reverse map has no
binding for it. -/
lemma buildXdgMap_none : ∀ (cs : List (String × CtxInfo))
    (f g : String → Option String), buildXdgMap cs f = .ok g →
    ∀ xdg, (∀ p ∈ cs, p.2.xdg_context ≠ some xdg) → f xdg = none → g xdg = none := by
  intro cs
  induction cs with
  | nil =>
    intro f g h xdg _ hf
    simp only [buildXdgMap, Except.ok.injEq] at h
    subst h
    exact hf
  | cons p rest ih =>
    intro f g h xdg habs hf
    rw [buildXdgMap] at h
    split at h
    · cases h
    · rename_i x hx
      split at h
      · cases h
      · refine ih _ _ h xdg (fun q hq => habs q (List.mem_cons_of_mem _ hq)) ?_
        have hne : xdg ≠ x := by
          intro he
          exact habs p (List.mem_cons_self _ _) (he ▸ hx)
        simp [hne, hf]

/-- When every context entry carries a non-falsy raw context, the
reverse-map build succeeds. -/
lemma buildXdgMap_total : ∀ (cs : List (String × CtxInfo)),
    (∀ p ∈ cs, ∃ x, p.2.xdg_context = some x ∧ ¬ x.isEmpty) →
    ∀ (f : String → Option String), ∃ m, buildXdgMap cs f = .ok m := by
  intro cs
  induction cs with
  | nil => exact fun _ f => ⟨f, rfl⟩
  | cons p rest ih =>
    intro hwf f
    obtain ⟨x, hx, hxe⟩ := hwf p (List.mem_cons_self _ _)
    rw [buildXdgMap, hx]
    simp only [if_neg hxe]
    exact ih (fun q hq => hwf q (List.mem_cons_of_mem _ hq)) _

/-- C7: every normalized category identifier produced by the initial
build derives from a raw XDG context by lowercasing with the override
table applied ("Applications" maps to "apps"); once a contexts manifest
exists, successful resolution of a raw context is a pure lookup (the
returned id is backed by an entry carrying exactly that raw context), and
resolving a raw context not present in a well-formed manifest fails with
`UnknownContext` rather than guessing or adding an entry. -/
theorem context_resolution_lookup_only :
    (∀ (dm : List (String × DirMeta)) (key : String) (info : CtxInfo),
        (key, info) ∈ buildContextsFromIndex dm →
        ∃ dir meta xdg, (dir, meta) ∈ dm ∧ meta.xdg_context = some xdg ∧
          key = applyContextOverride xdg.toLower)
    ∧ applyContextOverride "applications" = "apps"
    ∧ (∀ (cs : List (String × CtxInfo)) (xdg cid : String),
        getInternalContextId (some cs) xdg = .ok cid →
        ∃ info, (cid, info) ∈ cs ∧ info.xdg_context = some xdg)
    ∧ (∀ (cs : List (String × CtxInfo)) (xdg : String), cs ≠ [] →
        (∀ p ∈ cs, ∃ x, p.2.xdg_context = some x ∧ ¬ x.isEmpty) →
        (∀ p ∈ cs, p.2.xdg_context ≠ some xdg) →
        getInternalContextId (some cs) xdg = .error (.unknownContext xdg)) := by
  refine ⟨?_, by decide, ?_, ?_⟩
  · intro dm key info h
    have hperm := List.perm_insertionSort
      (fun a b : String × CtxInfo => a.1 ≤ b.1) (buildContextsAux dm [])
    have h' : (key, info) ∈ buildContextsAux dm [] := hperm.mem_iff.mp h
    rcases buildContextsAux_mem h' with h'' | ⟨dir, meta, xdg, hmem, hxd, hkey, _⟩
    · cases h''
    · exact ⟨dir, meta, xdg, hmem, hxd, hkey⟩
  · intro cs xdg cid h
    rw [getInternalContextId] at h
    split at h
    · cases h
    · split at h
      · cases h
      · rename_i m hb
        split at h
        · rename_i cid' hm
          rcases buildXdgMap_lookup cs _ m hb xdg cid' hm with hl | hl
          · obtain ⟨info, hmem, hinfo⟩ := hl
            have hcc : cid' = cid := by simpa using h
            exact ⟨info, hcc ▸ hmem, hinfo⟩
          · cases hl
        · cases h
  · intro cs xdg hne hwf habs
    rw [getInternalContextId]
    have he : ¬ (cs.isEmpty : Prop) := by
      cases cs
      · exact absurd rfl hne
      · simp
    rw [if_neg he]
    obtain ⟨m, hm⟩ := buildXdgMap_total cs hwf (fun _ => none)
    rw [hm]
    have hnone : m xdg = none := buildXdgMap_none cs _ m hm xdg habs rfl
    change (match m xdg with
      | some cid => Except.ok cid
      | none => Except.error (ContextError.unknownContext xdg)) = _
    rw [hnone]

/-- Witness for C7: in the concrete manifest
`{"apps": {"xdg_context": "Applications", ...}}`, resolving
"Applications" yields a backing entry, and resolving the absent raw
context "Bogus" fails with `UnknownContext`. -/
theorem context_resolution_lookup_only_witness :
    (∃ info, ("apps", info) ∈ [("apps", CtxInfo.mk (some "Applications") (some "Applications"))]
        ∧ info.xdg_context = some "Applications")
    ∧ getInternalContextId
        (some [("apps", CtxInfo.mk (some "Applications") (some "Applications"))])
        "Bogus" = .error (.unknownContext "Bogus") :=
  ⟨context_resolution_lookup_only.2.2.1
      [("apps", CtxInfo.mk (some "Applications") (some "Applications"))]
      "Applications" "apps" rfl,
   context_resolution_lookup_only.2.2.2
      [("apps", CtxInfo.mk (some "Applications") (some "Applications"))]
      "Bogus" (by decide)
      (by intro p hp; simp only [List.mem_singleton] at hp; subst hp; exact ⟨"Applications", rfl, by decide⟩)
      (by intro p hp; simp only [List.mem_singleton] at hp; subst hp; decide)⟩

/-! ## C8: `effective_size` invariant of the directory index -/

/-- A descriptor whose only section declares `Scale=0`: `int()` accepts
it and `_load_index` stores it unchanged. -/
def zeroScaleDescriptor : Descriptor :=
  { hasIconThemeSection := true
    dirEntries := ["16x16/apps"]
    sections := [("16x16/apps",
      { size := some 16, scale := some 0, context := some "Applications"
        type := none, min_size := none, max_size := none })] }

/-- C8 counterexample: the parser accepts a declared `Scale=0`, producing
a directory entry with `scale = 0`, so `scale ≥ 1` is not an invariant of
every constructed `DirectoryIndex`. -/
theorem effective_size_scale_ge_one_counterexample :
    loadIndex zeroScaleDescriptor = Except.ok
      [("16x16/apps",
        { size := 16, scale := 0, effective_size := 0
          xdg_context := some "Applications", type := "Threshold"
          min_size := none, max_size := none })]
    ∧ ¬ (1 ≤ (0 : Int)) :=
  ⟨rfl, by decide⟩

/-- C8 amended: every entry of a successfully constructed
`DirectoryIndex` is built from its descriptor section with
`effective_size = size * scale`, `size` defaulting to 0 and `scale` to 1
when undeclared; `scale ≥ 1` holds exactly when the section declares no
`Scale` or declares one that is at least 1 — the parser itself places no
lower bound on a declared `Scale`. -/
theorem effective_size_eq_size_mul_scale
    (d : Descriptor) (res : List (String × DirMeta))
    (hok : loadIndex d = Except.ok res) :
    ∀ dir meta, (dir, meta) ∈ res →
      ∃ sec, alookup d.sections dir = some sec
        ∧ meta = buildDirMeta sec
        ∧ meta.effective_size = meta.size * meta.scale
        ∧ meta.size = sec.size.getD 0
        ∧ meta.scale = sec.scale.getD 1
        ∧ ((sec.scale = none ∨ ∃ k, sec.scale = some k ∧ 1 ≤ k) →
            1 ≤ meta.scale) := by
  intro dir meta hmem
  rw [loadIndex] at hok
  split at hok
  · cases hok
  · split at hok
    · cases hok
    · obtain rfl : loadIndexDirMap d = res := by simpa using hok
      rw [loadIndexDirMap] at hmem
      obtain ⟨entry, _, hf⟩ := List.mem_filterMap.mp hmem
      revert hf
      cases hl : alookup d.sections entry with
      | none => intro hf; cases hf
      | some sec =>
        intro hf
        simp only [Option.some.injEq, Prod.mk.injEq] at hf
        obtain ⟨rfl, rfl⟩ := hf
        refine ⟨sec, hl, rfl, rfl, rfl, rfl, ?_⟩
        rintro (hnone | ⟨k, hk, hk1⟩) <;>
          simp [buildDirMeta, *]

/-- Witness for C8's amended theorem: a descriptor declaring
`Size=16 Scale=2` yields the entry with `effective_size = 32 = 16 * 2`
and `scale = 2 ≥ 1`. -/
theorem effective_size_eq_size_mul_scale_witness :
    ∃ sec,
      alookup [("32x32@2/apps",
        RawSection.mk (some 16) (some 2) (some "Applications") none none none)]
        "32x32@2/apps" = some sec
      ∧ ({ size := 16, scale := 2, effective_size := 32
           xdg_context := some "Applications", type := "Threshold"
           min_size := none, max_size := none } : DirMeta) = buildDirMeta sec
      ∧ (32 : Int) = 16 * 2
      ∧ (16 : Int) = sec.size.getD 0
      ∧ (2 : Int) = sec.scale.getD 1
      ∧ ((sec.scale = none ∨ ∃ k, sec.scale = some k ∧ 1 ≤ k) →
          1 ≤ (2 : Int)) :=
  effective_size_eq_size_mul_scale
    { hasIconThemeSection := true
      dirEntries := ["32x32@2/apps"]
      sections := [("32x32@2/apps",
        RawSection.mk (some 16) (some 2) (some "Applications") none none none)] }
    [("32x32@2/apps",
      { size := 16, scale := 2, effective_size := 32
        xdg_context := some "Applications", type := "Threshold"
        min_size := none, max_size := none })]
    rfl "32x32@2/apps" _ (List.mem_singleton.mpr rfl)

/-! ## Inventory reconciliation (`icon_build_check_icons.py`)

`icons.json` records are "bags of fields": each optional key is modelled
with `Option` (`none` = key absent).  The scanner output relevant here is
the per-icon size set, reported by `scan_directory` as an ascending
sorted list (`info["sizes"] = sorted(info["sizes"])`, line 360 of
`icon_theme_processor.py`). -/

/-- A persisted catalog record (`icons.json` entry). -/
structure CatalogRecord where
  file : Option String
  sizes : Option (List Int)
  context : Option String
  label : Option String
  symbolic : Option Bool
  hints : Option (List String)
  duplicate_of : Option String
  duplicates : Option (List String)
deriving DecidableEq, Repr

/-- A discovered icon as `icon_build_check_icons.main` consumes it: the
filename, the set of sizes found on disk, and the raw context. -/
structure DiscScan where
  file : String
  sizes : Finset Int
  xdg : Option String
deriving DecidableEq

/-- Python `sorted(...)` of a set of sizes: the ascending sorted list. -/
def sortedSizes (s : Finset Int) : List Int :=
  s.sort (· ≤ ·)

/-- The iteration order `sorted(disk_ids & json_ids)` of line 94. -/
def sharedIdsSorted (disc : List (String × DiscScan))
    (ex : List (String × CatalogRecord)) : List String :=
  List.insertionSort (· ≤ ·)
    (((disc.map Prod.fst).filter (fun i => (alookup ex i).isSome)).dedup)

/-- The `size_mismatches` computation of lines 93-98: for every shared
identifier, compare `discovered[icon_id]["sizes"]` (the sorted disk list)
with `existing[icon_id].get("sizes", [])` by list equality, and report
`(icon_id, json_sizes, disk_sizes)` when they differ. -/
def sizeMismatches (disc : List (String × DiscScan))
    (ex : List (String × CatalogRecord)) : List (String × List Int × List Int) :=
  (sharedIdsSorted disc ex).filterMap (fun i =>
    match alookup disc i, alookup ex i with
    | some d, some r =>
        if r.sizes.getD [] ≠ sortedSizes d.sizes
        then some (i, r.sizes.getD [], sortedSizes d.sizes)
        else none
    | _, _ => none)

/-- Membership in the shared-id iteration. -/
lemma mem_sharedIdsSorted {disc : List (String × DiscScan)}
    {ex : List (String × CatalogRecord)} {i : String} :
    i ∈ sharedIdsSorted disc ex ↔
      i ∈ disc.map Prod.fst ∧ (alookup ex i).isSome := by
  unfold sharedIdsSorted
  rw [(List.perm_insertionSort _ _).mem_iff, List.mem_dedup, List.mem_filter]

/-- Characterization of a reported size mismatch. -/
lemma mem_sizeMismatches {disc : List (String × DiscScan)}
    {ex : List (String × CatalogRecord)} {id : String} {js ds : List Int} :
    (id, js, ds) ∈ sizeMismatches disc ex ↔
      ∃ d r, alookup disc id = some d ∧ alookup ex id = some r ∧
        js = r.sizes.getD [] ∧ ds = sortedSizes d.sizes ∧ js ≠ ds := by
  constructor
  · intro h
    obtain ⟨i, hi, hf⟩ := List.mem_filterMap.mp h
    revert hf
    cases hd : alookup disc i with
    | none => intro hf; cases hf
    | some d =>
      cases hr : alookup ex i with
      | none => intro hf; cases hf
      | some r =>
        intro hf
        have hf' : (if r.sizes.getD [] ≠ sortedSizes d.sizes
            then some (i, r.sizes.getD [], sortedSizes d.sizes)
            else none) = some (id, js, ds) := hf
        by_cases hne : r.sizes.getD [] ≠ sortedSizes d.sizes
        · rw [if_pos hne] at hf'
          simp only [Option.some.injEq, Prod.mk.injEq] at hf'
          obtain ⟨rfl, rfl, rfl⟩ := hf'
          exact ⟨d, r, hd, hr, rfl, rfl, hne⟩
        · rw [if_neg hne] at hf'
          cases hf'
  · rintro ⟨d, r, hd, hr, rfl, rfl, hne⟩
    apply List.mem_filterMap.mpr
    refine ⟨id, ?_, ?_⟩
    · exact mem_sharedIdsSorted.mpr
        ⟨mem_keys_of_alookup hd, by simp [hr]⟩
    · rw [hd, hr]
      show (if r.sizes.getD [] ≠ sortedSizes d.sizes
          then some (id, r.sizes.getD [], sortedSizes d.sizes)
          else none) = some (id, r.sizes.getD [], sortedSizes d.sizes)
      rw [if_pos hne]

/-- C4 counterexample discovery: identifier "i" found at sizes 16 and 32. -/
def ce4Disc : List (String × DiscScan) :=
  [("i", ⟨"a.png", {16, 32}, some "Applications"⟩)]

/-- C4 counterexample catalog: same identifier persisted with sizes
recorded as `[32, 16]`. -/
def ce4Ex : List (String × CatalogRecord) :=
  [("i", ⟨some "a.png", some [32, 16], some "apps", none, none, none, none, none⟩)]

/-- A strictly ascending list is the sorted form of its own element set. -/
lemma eq_sortedSizes_of_sorted_toFinset {js : List Int} {s : Finset Int}
    (hs : js.Sorted (· < ·)) (ht : js.toFinset = s) : js = sortedSizes s := by
  have hnd : js.Nodup := hs.nodup
  have hnd' : (sortedSizes s).Nodup := s.sort_nodup (· ≤ ·)
  have hset' : (sortedSizes s).toFinset = s := by
    simp [sortedSizes]
  have hperm : js.Perm (sortedSizes s) :=
    List.perm_of_nodup_nodup_toFinset_eq hnd hnd' (ht.trans hset'.symm)
  exact List.eq_of_perm_of_sorted hperm
    (hs.le_of_lt) (s.sort_sorted (· ≤ ·))

/-- C4 counterexample: the persisted list `[32, 16]` equals the
discovered set `{16, 32}` as a set, yet a size mismatch is reported,
because line 97 compares the persisted list against the ascending sorted
disk list by list equality, not as sets.  This refutes the claimed "if
and only if the sizes differ as sets". -/
theorem size_mismatch_not_set_comparison_counterexample :
    ("i", [32, 16], sortedSizes {16, 32}) ∈ sizeMismatches ce4Disc ce4Ex
    ∧ ([32, 16] : List Int).toFinset = ({16, 32} : Finset Int) := by
  have h1632 : ([16, 32] : List Int) = sortedSizes {16, 32} :=
    eq_sortedSizes_of_sorted_toFinset (by decide) (by decide)
  constructor
  · apply mem_sizeMismatches.mpr
    refine ⟨⟨"a.png", {16, 32}, some "Applications"⟩,
      ⟨some "a.png", some [32, 16], some "apps", none, none, none, none, none⟩,
      rfl, rfl, rfl, rfl, ?_⟩
    rw [← h1632]
    decide
  · decide

/-- C4 amended: for every identifier present in both the persisted
catalog and the disk scan, a size mismatch is reported (as the ordered
pair of the persisted list and the ascending sorted discovered list) if
and only if the persisted `sizes` list differs, as a list, from the
ascending sorted list of the discovered size set; when the persisted list
is strictly ascending, that coincides with the size sets differing. -/
theorem size_mismatch_reported_iff_lists_differ
    (disc : List (String × DiscScan)) (ex : List (String × CatalogRecord)) :
    (∀ (id : String) (js ds : List Int),
      (id, js, ds) ∈ sizeMismatches disc ex ↔
        ∃ d r, alookup disc id = some d ∧ alookup ex id = some r ∧
          js = r.sizes.getD [] ∧ ds = sortedSizes d.sizes ∧ js ≠ ds)
    ∧ (∀ (js : List Int) (s : Finset Int), js.Sorted (· < ·) →
        (js = sortedSizes s ↔ js.toFinset = s)) := by
  refine ⟨fun id js ds => mem_sizeMismatches, fun js s hsorted => ?_⟩
  constructor
  · rintro rfl
    simp [sortedSizes]
  · intro hset
    have hnd : js.Nodup := hsorted.nodup
    have hnd' : (sortedSizes s).Nodup := s.sort_nodup (· ≤ ·)
    have hset' : (sortedSizes s).toFinset = s := by
      simp [sortedSizes]
    have hperm : js.Perm (sortedSizes s) :=
      List.perm_of_nodup_nodup_toFinset_eq hnd hnd' (hset.trans hset'.symm)
    exact List.eq_of_perm_of_sorted hperm
      (hsorted.le_of_lt) (s.sort_sorted (· ≤ ·))

/-- Witness for C4's amended theorem: persisted `[16]` against the
discovered set `{16, 32}` is reported as a mismatch, and the strictly
sorted list `[16, 32]` equals the sorted form of `{16, 32}` exactly
because the sets agree. -/
theorem size_mismatch_reported_iff_lists_differ_witness :
    ((("j", ([16] : List Int), ([16, 32] : List Int)) ∈
        sizeMismatches [("j", ⟨"b.png", {16, 32}, none⟩)]
          [("j", ⟨some "b.png", some [16], none, none, none, none, none, none⟩)]) ↔
      ∃ d r, alookup [("j", (⟨"b.png", {16, 32}, none⟩ : DiscScan))] "j" = some d
        ∧ alookup [("j", (⟨some "b.png", some [16], none, none, none, none, none,
            none⟩ : CatalogRecord))] "j" = some r
        ∧ ([16] : List Int) = r.sizes.getD []
        ∧ ([16, 32] : List Int) = sortedSizes d.sizes
        ∧ ([16] : List Int) ≠ [16, 32])
    ∧ (([16, 32] : List Int) = sortedSizes {16, 32} ↔
        ([16, 32] : List Int).toFinset = ({16, 32} : Finset Int)) :=
  ⟨(size_mismatch_reported_iff_lists_differ
      [("j", ⟨"b.png", {16, 32}, none⟩)]
      [("j", ⟨some "b.png", some [16], none, none, none, none, none, none⟩)]).1
    "j" [16] [16, 32],
   (size_mismatch_reported_iff_lists_differ
      [("j", ⟨"b.png", {16, 32}, none⟩)]
      [("j", ⟨some "b.png", some [16], none, none, none, none, none, none⟩)]).2
    [16, 32] {16, 32} (by decide)⟩

/-! ## Mutating modes (`icon_build_check_icons.py`, lines 200-234)

`--update-sizes` rewrites `existing[icon_id]["sizes"] = disk_sizes` for
each reported mismatch; `--insert-missing` adds a fresh entry for every
identifier on disk but not in the catalog.  Both leave every other field
of every existing record untouched and delete nothing. -/

/-- Python `os.path.splitext(name)[0]` / `Path(name).stem` for ordinary
icon filenames: everything before the last dot; names without a dot are
kept whole. -/
def stemOf (n : String) : String :=
  if '.' ∈ n.toList then
    ⟨(((n.toList).reverse.dropWhile (fun c => c ≠ '.')).drop 1).reverse⟩
  else n

/-- The inserted entry's context (lines 221-226):
`icon_id.split("_")[1] if "_" in icon_id else None`. -/
def contextOfId (id : String) : Option String :=
  (id.splitOn "_")[1]?

/-- A freshly inserted record (lines 220-230): file, sorted sizes,
context parsed from the identifier, `symbolic` only for `-symbolic`
stems; no curated fields. -/
def newEntry (id : String) (info : DiscScan) : CatalogRecord :=
  { file := some info.file
    sizes := some (sortedSizes info.sizes)
    context := contextOfId id
    label := none
    symbolic := if (stemOf info.file).endsWith "-symbolic" then some true else none
    hints := none
    duplicate_of := none
    duplicates := none }

/-- Per-record effect of the `--update-sizes` loop (lines 202-205): a
record with a reported mismatch gets the disk sizes; all others are
untouched. -/
def updateSizesEntry (mm : List (String × List Int × List Int))
    (k : String) (r : CatalogRecord) : CatalogRecord :=
  match mm.find? (fun t => t.1 = k) with
  | some t => { r with sizes := some t.2.2 }
  | none => r

/-- The catalog after the `--update-sizes` loop. -/
def applyUpdateSizes (ex : List (String × CatalogRecord))
    (mm : List (String × List Int × List Int)) : List (String × CatalogRecord) :=
  ex.map (fun p => (p.1, updateSizesEntry mm p.1 p.2))

/-- The `on_disk_not_json = sorted(disk_ids - json_ids)` list (line 89). -/
def onDiskNotJson (disc : List (String × DiscScan))
    (ex : List (String × CatalogRecord)) : List String :=
  List.insertionSort (fun a b : String => a ≤ b)
    (((disc.map Prod.fst).filter (fun i => !(alookup ex i).isSome)).dedup)

/-- The entries appended by the `--insert-missing` loop (lines 218-231);
every listed identifier stems from the disk scan, so its lookup there
succeeds. -/
def insertedEntries (disc : List (String × DiscScan)) (ids : List String) :
    List (String × CatalogRecord) :=
  ids.filterMap (fun i =>
    match alookup disc i with
    | some info => some (i, newEntry i info)
    | none => none)

/-- The catalog after the optional `--update-sizes` pass. -/
def afterUpdateSizes (disc : List (String × DiscScan))
    (ex : List (String × CatalogRecord)) (upd : Bool) :
    List (String × CatalogRecord) :=
  if upd then applyUpdateSizes ex (sizeMismatches disc ex) else ex

/-- The catalog persisted by `main` with the given mode flags: sizes
refreshed for mismatches when `--update-sizes`, missing records appended
when `--insert-missing` (dict insertion of fresh keys appends). -/
def runMutations (disc : List (String × DiscScan))
    (ex : List (String × CatalogRecord)) (upd ins : Bool) :
    List (String × CatalogRecord) :=
  if ins then
    afterUpdateSizes disc ex upd ++ insertedEntries disc (onDiskNotJson disc ex)
  else afterUpdateSizes disc ex upd

/-- An option whose `isSome` is `false` is `none`. -/
lemma isSome_false_iff {α : Type} (o : Option α) : o.isSome = false ↔ o = none := by
  cases o <;> simp

/-- Membership in the disk-minus-catalog identifier list. -/
lemma mem_onDiskNotJson {disc : List (String × DiscScan)}
    {ex : List (String × CatalogRecord)} {i : String} :
    i ∈ onDiskNotJson disc ex ↔
      i ∈ disc.map Prod.fst ∧ alookup ex i = none := by
  unfold onDiskNotJson
  rw [(List.perm_insertionSort _ _).mem_iff, List.mem_dedup, List.mem_filter,
    Bool.not_eq_true', isSome_false_iff]

/-- Looking up an identifier among the inserted entries. -/
lemma alookup_insertedEntries_isSome {disc : List (String × DiscScan)} :
    ∀ {ids : List String} {k : String},
    (alookup (insertedEntries disc ids) k).isSome ↔
      k ∈ ids ∧ (alookup disc k).isSome := by
  intro ids
  induction ids with
  | nil => intro k; simp [insertedEntries, alookup]
  | cons i rest ih =>
    intro k
    simp only [insertedEntries, List.filterMap_cons]
    cases hd : alookup disc i with
    | none =>
      rw [show (insertedEntries disc rest) =
        rest.filterMap (fun i => match alookup disc i with
          | some info => some (i, newEntry i info)
          | none => none) from rfl] at ih
      rw [ih]
      constructor
      · rintro ⟨hmem, hs⟩
        exact ⟨List.mem_cons_of_mem _ hmem, hs⟩
      · rintro ⟨hmem, hs⟩
        rcases List.mem_cons.mp hmem with rfl | hmem'
        · rw [hd] at hs; cases hs
        · exact ⟨hmem', hs⟩
    | some info =>
      rw [alookup]
      by_cases hk : i = k
      · subst hk
        simp [hd]
      · rw [if_neg hk]
        rw [show (insertedEntries disc rest) =
          rest.filterMap (fun i => match alookup disc i with
            | some info => some (i, newEntry i info)
            | none => none) from rfl] at ih
        rw [ih]
        constructor
        · rintro ⟨hmem, hs⟩
          exact ⟨List.mem_cons_of_mem _ hmem, hs⟩
        · rintro ⟨hmem, hs⟩
          rcases List.mem_cons.mp hmem with rfl | hmem'
          · exact absurd rfl hk
          · exact ⟨hmem', hs⟩

/-- The record found for an inserted identifier is the fresh entry built
from its disk discovery. -/
lemma alookup_insertedEntries_of_mem {disc : List (String × DiscScan)} :
    ∀ {ids : List String} {k : String} {info : DiscScan},
    k ∈ ids → alookup disc k = some info →
    alookup (insertedEntries disc ids) k = some (newEntry k info) := by
  intro ids
  induction ids with
  | nil => intro k info h; cases h
  | cons i rest ih =>
    intro k info hmem hd
    simp only [insertedEntries, List.filterMap_cons]
    by_cases hk : i = k
    · subst hk
      rw [hd, alookup, if_pos rfl]
    · cases hdi : alookup disc i with
      | none =>
        rcases List.mem_cons.mp hmem with rfl | hmem'
        · rw [hd] at hdi; cases hdi
        · exact ih hmem' hd
      | some info' =>
        rw [alookup, if_neg hk]
        rcases List.mem_cons.mp hmem with rfl | hmem'
        · exact absurd rfl hk
        · exact ih hmem' hd

/-- C6: with `--insert-missing` and/or `--update-sizes`, every record
present in the catalog stays present with `label`, `hints`,
`duplicate_of`, `duplicates`, `context`, `file` and `symbolic` unchanged,
its `sizes` changing only under `--update-sizes` and only to the disk
list of a reported size mismatch; an absent identifier appears afterwards
exactly when `--insert-missing` is set and the identifier is on disk but
not in the catalog, in which case its record is the fresh entry built
from the discovery — nothing is ever deleted. -/
theorem mutations_are_additive
    (disc : List (String × DiscScan)) (ex : List (String × CatalogRecord))
    (upd ins : Bool) :
    (∀ id r, alookup ex id = some r →
      ∃ r', alookup (runMutations disc ex upd ins) id = some r'
        ∧ r'.file = r.file ∧ r'.context = r.context ∧ r'.label = r.label
        ∧ r'.symbolic = r.symbolic ∧ r'.hints = r.hints
        ∧ r'.duplicate_of = r.duplicate_of ∧ r'.duplicates = r.duplicates
        ∧ (r'.sizes ≠ r.sizes → upd = true ∧
            ∃ js ds, (id, js, ds) ∈ sizeMismatches disc ex ∧ r'.sizes = some ds))
    ∧ (∀ id, alookup ex id = none →
        ((alookup (runMutations disc ex upd ins) id).isSome ↔
          ins = true ∧ id ∈ onDiskNotJson disc ex))
    ∧ (∀ id info, alookup ex id = none → alookup disc id = some info →
        ins = true → id ∈ onDiskNotJson disc ex →
        alookup (runMutations disc ex upd ins) id = some (newEntry id info)) := by
  have hafter : ∀ id r, alookup ex id = some r →
      ∃ r', alookup (afterUpdateSizes disc ex upd) id = some r'
        ∧ r'.file = r.file ∧ r'.context = r.context ∧ r'.label = r.label
        ∧ r'.symbolic = r.symbolic ∧ r'.hints = r.hints
        ∧ r'.duplicate_of = r.duplicate_of ∧ r'.duplicates = r.duplicates
        ∧ (r'.sizes ≠ r.sizes → upd = true ∧
            ∃ js ds, (id, js, ds) ∈ sizeMismatches disc ex ∧ r'.sizes = some ds) := by
    intro id r hr
    unfold afterUpdateSizes
    cases upd with
    | false =>
      exact ⟨r, by simpa using hr, rfl, rfl, rfl, rfl, rfl, rfl, rfl,
        fun hne => absurd rfl hne⟩
    | true =>
      rw [if_pos rfl]
      rw [show applyUpdateSizes ex (sizeMismatches disc ex) =
        ex.map (fun p => (p.1, updateSizesEntry (sizeMismatches disc ex) p.1 p.2))
        from rfl]
      rw [alookup_map_entry (updateSizesEntry (sizeMismatches disc ex)) ex id, hr]
      refine ⟨updateSizesEntry (sizeMismatches disc ex) id r, rfl, ?_⟩
      unfold updateSizesEntry
      cases hf : (sizeMismatches disc ex).find? (fun t => t.1 = id) with
      | none =>
        exact ⟨rfl, rfl, rfl, rfl, rfl, rfl, rfl, fun hne => absurd rfl hne⟩
      | some t =>
        refine ⟨rfl, rfl, rfl, rfl, rfl, rfl, rfl, fun _ => ⟨rfl, t.2.1, t.2.2, ?_, rfl⟩⟩
        have hmem := List.mem_of_find?_eq_some hf
        have hpred := List.find?_some hf
        simp only [decide_eq_true_eq] at hpred
        rw [← hpred]
        simpa using hmem
  have hafter_none : ∀ id, alookup ex id = none →
      alookup (afterUpdateSizes disc ex upd) id = none := by
    intro id hr
    unfold afterUpdateSizes
    cases upd with
    | false => simpa using hr
    | true =>
      rw [if_pos rfl]
      rw [show applyUpdateSizes ex (sizeMismatches disc ex) =
        ex.map (fun p => (p.1, updateSizesEntry (sizeMismatches disc ex) p.1 p.2))
        from rfl]
      rw [alookup_map_entry (updateSizesEntry (sizeMismatches disc ex)) ex id, hr]
      rfl
  refine ⟨?_, ?_, ?_⟩
  · intro id r hr
    obtain ⟨r', hr', hframe⟩ := hafter id r hr
    unfold runMutations
    cases ins with
    | false => exact ⟨r', by simpa using hr', hframe⟩
    | true =>
      rw [if_pos rfl, alookup_append, hr']
      exact ⟨r', rfl, hframe⟩
  · intro id hnone
    have h1 := hafter_none id hnone
    unfold runMutations
    cases ins with
    | false =>
      rw [if_neg (by simp)]
      simp [h1]
    | true =>
      rw [if_pos rfl, alookup_append, h1]
      rw [alookup_insertedEntries_isSome]
      constructor
      · rintro ⟨hmem, _⟩
        exact ⟨rfl, hmem⟩
      · rintro ⟨_, hmem⟩
        refine ⟨hmem, ?_⟩
        exact alookup_isSome_of_mem_keys (mem_onDiskNotJson.mp hmem).1
  · intro id info hnone hd hins hmem
    subst hins
    have h1 := hafter_none id hnone
    unfold runMutations
    rw [if_pos rfl, alookup_append, h1]
    exact alookup_insertedEntries_of_mem hmem hd

/-- C6 witness data: an existing curated record and one new icon on disk. -/
def w6Disc : List (String × DiscScan) :=
  [("new", ⟨"n.png", {16}, none⟩), ("old", ⟨"o.png", {16, 32}, none⟩)]

/-- C6 witness catalog: the existing record carries every curated field. -/
def w6Old : CatalogRecord :=
  ⟨some "o.png", some [16], some "apps", some "Old", some true,
   some ["h"], some "x", some ["y"]⟩

/-- Witness for C6 at a concrete catalog and scan with both flags set:
the curated record "old" survives with all curated fields intact, and the
missing identifier "new" is inserted as the fresh entry. -/
theorem mutations_are_additive_witness :
    (∃ r', alookup (runMutations w6Disc [("old", w6Old)] true true) "old" = some r'
      ∧ r'.file = w6Old.file ∧ r'.context = w6Old.context ∧ r'.label = w6Old.label
      ∧ r'.symbolic = w6Old.symbolic ∧ r'.hints = w6Old.hints
      ∧ r'.duplicate_of = w6Old.duplicate_of ∧ r'.duplicates = w6Old.duplicates
      ∧ (r'.sizes ≠ w6Old.sizes → true = true ∧
          ∃ js ds, ("old", js, ds) ∈ sizeMismatches w6Disc [("old", w6Old)]
            ∧ r'.sizes = some ds))
    ∧ alookup (runMutations w6Disc [("old", w6Old)] true true) "new"
        = some (newEntry "new" ⟨"n.png", {16}, none⟩) :=
  ⟨(mutations_are_additive w6Disc [("old", w6Old)] true true).1 "old" w6Old rfl,
   (mutations_are_additive w6Disc [("old", w6Old)] true true).2.2 "new"
      ⟨"n.png", {16}, none⟩ rfl rfl rfl
      (mem_onDiskNotJson.mpr ⟨by decide, rfl⟩)⟩

/-! ## Scan aggregation (`icon_theme_processor.py`,
`Theme.scan_directory`, lines 311-361)

For each collected file, the scanner derives — as pure per-file functions
of the path, given the theme's index and contexts — the effective size
and raw context of its directory, its filename, and the icon id
(`generate_id`); it then accumulates them into the `discovered` dict.  We
model each collected file by that derived tuple, and `discovered` as a
function map (Python dict equality ignores insertion order, so a function
map is the faithful notion of "the same result map"). -/

/-- One collected file with its derived attributes. -/
structure FileInfo where
  path : String
  size : Int
  xdg : Option String
  ictx : Option String
  filename : String
deriving DecidableEq, Repr

/-- `generate_id` (lines 252-257): `{theme}_{context}_{stem}`, or
`{theme}_{stem}` when the internal context id is falsy. -/
def generateId (themeId : String) (ictx : Option String) (filename : String) : String :=
  match ictx with
  | some c =>
      if c.isEmpty then themeId ++ "_" ++ stemOf filename
      else themeId ++ "_" ++ c ++ "_" ++ stemOf filename
  | none => themeId ++ "_" ++ stemOf filename

/-- The icon id of a collected file (line 334). -/
def iconId (tid : String) (f : FileInfo) : String :=
  generateId tid f.ictx f.filename

/-- One value of the `discovered` dict (lines 335-343): the size set, per
size the list of paths in discovery order, and the raw context and
filename recorded when the id was first seen. -/
structure Disc where
  sizes : Finset Int
  paths : Int → List String
  xdg : Option String
  file : String

/-- The `discovered` dict as a map. -/
abbrev IconMap := String → Option Disc

/-- Processing one file at its id (lines 335-343): first sight creates
the entry recording this file's raw context and filename; later files
add their size and append their path. -/
def addFile (f : FileInfo) : Option Disc → Disc
  | none =>
      ⟨{f.size}, fun s => if s = f.size then [f.path] else [], f.xdg, f.filename⟩
  | some d =>
      ⟨insert f.size d.sizes,
       fun s => if s = f.size then d.paths s ++ [f.path] else d.paths s,
       d.xdg, d.file⟩

/-- One iteration of the `for f in all_files` loop. -/
def stepFile (tid : String) (m : IconMap) (f : FileInfo) : IconMap :=
  fun k => if k = iconId tid f then some (addFile f (m (iconId tid f))) else m k

/-- The whole loop over the collected files, in traversal order. -/
def scanAggregate (tid : String) (files : List FileInfo) : IconMap :=
  files.foldl (stepFile tid) (fun _ => none)

/-- Folding the files that share one id onto an optional entry. -/
def applyMatching (o : Option Disc) (fs : List FileInfo) : Option Disc :=
  fs.foldl (fun o f => some (addFile f o)) o

/-- Size set of an optional entry. -/
def discSizes : Option Disc → Finset Int
  | some d => d.sizes
  | none => ∅

/-- Path list of an optional entry at a size. -/
def discPaths (o : Option Disc) (s : Int) : List String :=
  match o with
  | some d => d.paths s
  | none => []

/-- Raw context of an optional entry. -/
def discXdg (o : Option Disc) : Option (Option String) :=
  o.map Disc.xdg

/-- Recorded filename of an optional entry. -/
def discFile (o : Option Disc) : Option String :=
  o.map Disc.file

/-- The loop's value at an id is the fold of exactly the files mapping to
that id, in traversal order. -/
lemma scanAggregate_char (tid : String) :
    ∀ (files : List FileInfo) (acc : IconMap) (id : String),
    (files.foldl (stepFile tid) acc) id =
      applyMatching (acc id) (files.filter (fun f => iconId tid f = id)) := by
  intro files
  induction files with
  | nil => intro acc id; rfl
  | cons f rest ih =>
    intro acc id
    rw [List.foldl_cons, ih]
    by_cases h : iconId tid f = id
    · rw [List.filter_cons_of_pos (by simpa using h)]
      have hstep : (stepFile tid acc f) id = some (addFile f (acc id)) := by
        rw [stepFile, if_pos h.symm, h]
      rw [hstep]
      rfl
    · rw [List.filter_cons_of_neg (by simpa using h)]
      have hstep : (stepFile tid acc f) id = acc id := by
        rw [stepFile, if_neg (fun he => h he.symm)]
      rw [hstep]

/-- Sizes accumulated by the fold: the sizes of the files plus whatever
was already present. -/
lemma discSizes_applyMatching :
    ∀ (fs : List FileInfo) (o : Option Disc),
    discSizes (applyMatching o fs) = (fs.map (·.size)).toFinset ∪ discSizes o := by
  intro fs
  induction fs with
  | nil => intro o; simp [applyMatching]
  | cons f rest ih =>
    intro o
    rw [show applyMatching o (f :: rest) =
      applyMatching (some (addFile f o)) rest from rfl, ih]
    have haddf : discSizes (some (addFile f o)) = insert f.size (discSizes o) := by
      cases o <;> simp [addFile, discSizes]
    rw [haddf]
    ext x
    simp only [List.map_cons, List.toFinset_cons, Finset.mem_union,
      Finset.mem_insert]
    tauto

/-- Paths accumulated by the fold at one size: previous paths followed by
the matching files' paths in order. -/
lemma discPaths_applyMatching :
    ∀ (fs : List FileInfo) (o : Option Disc) (s : Int),
    discPaths (applyMatching o fs) s =
      discPaths o s ++ (fs.filter (fun f => f.size = s)).map (·.path) := by
  intro fs
  induction fs with
  | nil => intro o s; simp [applyMatching]
  | cons f rest ih =>
    intro o s
    rw [show applyMatching o (f :: rest) =
      applyMatching (some (addFile f o)) rest from rfl, ih]
    by_cases h : f.size = s
    · rw [List.filter_cons_of_pos (by simpa using h)]
      have haddf : discPaths (some (addFile f o)) s = discPaths o s ++ [f.path] := by
        cases o <;> simp [addFile, discPaths, h.symm]
      rw [haddf]
      simp
    · rw [List.filter_cons_of_neg (by simpa using h)]
      have hsf : ¬ s = f.size := fun he => h he.symm
      have haddf : discPaths (some (addFile f o)) s = discPaths o s := by
        cases o <;> simp [addFile, discPaths, hsf]
      rw [haddf]

/-- The fold of a nonempty file list is always an entry. -/
lemma isSome_applyMatching :
    ∀ (fs : List FileInfo) (o : Option Disc),
    (applyMatching o fs).isSome = (o.isSome || !fs.isEmpty) := by
  intro fs
  induction fs with
  | nil => intro o; simp [applyMatching]
  | cons f rest ih =>
    intro o
    rw [show applyMatching o (f :: rest) =
      applyMatching (some (addFile f o)) rest from rfl, ih]
    simp

/-- The raw context recorded over an existing entry never changes. -/
lemma discXdg_applyMatching_some :
    ∀ (fs : List FileInfo) (d : Disc),
    discXdg (applyMatching (some d) fs) = some d.xdg := by
  intro fs
  induction fs with
  | nil => intro d; rfl
  | cons f rest ih =>
    intro d
    rw [show applyMatching (some d) (f :: rest) =
      applyMatching (some (addFile f (some d))) rest from rfl, ih]
    rfl

/-- The raw context of a fresh entry is the first file's. -/
lemma discXdg_applyMatching_none (f : FileInfo) (fs : List FileInfo) :
    discXdg (applyMatching none (f :: fs)) = some f.xdg := by
  rw [show applyMatching none (f :: fs) =
    applyMatching (some (addFile f none)) fs from rfl,
    discXdg_applyMatching_some]
  rfl

/-- The filename recorded over an existing entry never changes. -/
lemma discFile_applyMatching_some :
    ∀ (fs : List FileInfo) (d : Disc),
    discFile (applyMatching (some d) fs) = some d.file := by
  intro fs
  induction fs with
  | nil => intro d; rfl
  | cons f rest ih =>
    intro d
    rw [show applyMatching (some d) (f :: rest) =
      applyMatching (some (addFile f (some d))) rest from rfl, ih]
    rfl

/-- The filename of a fresh entry is the first file's. -/
lemma discFile_applyMatching_none (f : FileInfo) (fs : List FileInfo) :
    discFile (applyMatching none (f :: fs)) = some f.filename := by
  rw [show applyMatching none (f :: fs) =
    applyMatching (some (addFile f none)) fs from rfl,
    discFile_applyMatching_some]
  rfl

/-- C9 counterexample files: an `.svg` and a `.png` with the same stem in
the same directory, hence the same icon id. -/
def f1ce : FileInfo := ⟨"apps/a.svg", 16, some "Applications", some "apps", "a.svg"⟩

/-- The second counterexample file. -/
def f2ce : FileInfo := ⟨"apps/a.png", 16, some "Applications", some "apps", "a.png"⟩

/-- C9 counterexample: visiting the two files of one icon in the two
possible orders records different filenames (the first file seen wins),
so the two traversals do not produce the same result map.  This refutes
the claim that any two traversal orders yield the same map including path
lists and filename per icon. -/
theorem scan_order_changes_recorded_filename_counterexample :
    discFile (scanAggregate "t" [f1ce, f2ce] "t_apps_a") = some "a.svg"
    ∧ discFile (scanAggregate "t" [f2ce, f1ce] "t_apps_a") = some "a.png"
    ∧ scanAggregate "t" [f1ce, f2ce] ≠ scanAggregate "t" [f2ce, f1ce] := by
  have h1 : discFile (scanAggregate "t" [f1ce, f2ce] "t_apps_a") = some "a.svg" := by
    decide
  have h2 : discFile (scanAggregate "t" [f2ce, f1ce] "t_apps_a") = some "a.png" := by
    decide
  refine ⟨h1, h2, fun h => ?_⟩
  have h' := congrArg (fun m => discFile (m "t_apps_a")) h
  simp only at h'
  rw [h1, h2] at h'
  exact absurd h' (by decide)

/-- C9 amended: the size set of every icon is a function of the set of
collected files alone (so re-scanning an unchanged tree reproduces the
identifiers and size sets); under any permutation of the traversal the
discovered identifiers, their size sets, and — whenever files sharing an
id agree on it, as context resolution guarantees — their raw contexts are
unchanged, and each per-size path list is a permutation of its
counterpart; the recorded filename and the order within path lists,
however, follow traversal order. -/
theorem scan_aggregation_order_independent_up_to_paths
    (tid : String) (l₁ l₂ : List FileInfo) (hperm : l₁.Perm l₂) :
    (∀ id, discSizes (scanAggregate tid l₁ id) =
        ((l₁.filter (fun f => iconId tid f = id)).map (·.size)).toFinset)
    ∧ (∀ id, (scanAggregate tid l₁ id).isSome = (scanAggregate tid l₂ id).isSome)
    ∧ (∀ id, discSizes (scanAggregate tid l₁ id) = discSizes (scanAggregate tid l₂ id))
    ∧ (∀ id s, (discPaths (scanAggregate tid l₁ id) s).Perm
        (discPaths (scanAggregate tid l₂ id) s))
    ∧ ((∀ f g, f ∈ l₁ → g ∈ l₁ → iconId tid f = iconId tid g → f.xdg = g.xdg) →
        ∀ id, discXdg (scanAggregate tid l₁ id) = discXdg (scanAggregate tid l₂ id)) := by
  have hchar : ∀ (l : List FileInfo) (id : String),
      scanAggregate tid l id =
        applyMatching none (l.filter (fun f => iconId tid f = id)) := by
    intro l id
    exact scanAggregate_char tid l (fun _ => none) id
  have hfperm : ∀ id, (l₁.filter (fun f => iconId tid f = id)).Perm
      (l₂.filter (fun f => iconId tid f = id)) := by
    intro id
    exact hperm.filter _
  refine ⟨?_, ?_, ?_, ?_, ?_⟩
  · intro id
    rw [hchar, discSizes_applyMatching]
    simp [discSizes]
  · intro id
    rw [hchar, hchar, isSome_applyMatching, isSome_applyMatching]
    have := (hfperm id).length_eq
    cases hf1 : l₁.filter (fun f => iconId tid f = id) <;>
      cases hf2 : l₂.filter (fun f => iconId tid f = id) <;>
        rw [hf1, hf2] at this <;> simp_all
  · intro id
    rw [hchar, hchar, discSizes_applyMatching, discSizes_applyMatching]
    have : ((l₁.filter (fun f => iconId tid f = id)).map (·.size)).toFinset =
        ((l₂.filter (fun f => iconId tid f = id)).map (·.size)).toFinset :=
      List.toFinset_eq_of_perm _ _ ((hfperm id).map _)
    rw [this]
  · intro id s
    rw [hchar, hchar, discPaths_applyMatching, discPaths_applyMatching]
    simp only [discPaths, List.nil_append]
    exact (((hfperm id).filter _).map _)
  · intro hxdg id
    rw [hchar, hchar]
    cases hf1 : l₁.filter (fun f => iconId tid f = id) with
    | nil =>
      have hf2 : l₂.filter (fun f => iconId tid f = id) = [] := by
        have := hfperm id
        rw [hf1] at this
        exact this.symm.eq_nil
      rw [hf2]
    | cons f rest =>
      cases hf2 : l₂.filter (fun f => iconId tid f = id) with
      | nil =>
        have := hfperm id
        rw [hf1, hf2] at this
        exact absurd this.eq_nil (by simp)
      | cons g rest' =>
        rw [discXdg_applyMatching_none, discXdg_applyMatching_none]
        have hfmem : f ∈ l₁ ∧ iconId tid f = id := by
          have : f ∈ l₁.filter (fun f => iconId tid f = id) := by
            rw [hf1]; exact List.mem_cons_self _ _
          have h' := List.mem_filter.mp this
          exact ⟨h'.1, by simpa using h'.2⟩
        have hgmem : g ∈ l₁ ∧ iconId tid g = id := by
          have : g ∈ l₂.filter (fun f => iconId tid f = id) := by
            rw [hf2]; exact List.mem_cons_self _ _
          have h' := List.mem_filter.mp this
          exact ⟨hperm.mem_iff.mpr h'.1, by simpa using h'.2⟩
        rw [hxdg f g hfmem.1 hgmem.1 (hfmem.2.trans hgmem.2.symm)]

/-- Witness for C9's amended theorem at the two concrete traversal orders
of the counterexample files. -/
theorem scan_aggregation_order_independent_up_to_paths_witness :
    (∀ id, discSizes (scanAggregate "t" [f1ce, f2ce] id) =
        (([f1ce, f2ce].filter (fun f => iconId "t" f = id)).map (·.size)).toFinset)
    ∧ (∀ id, (scanAggregate "t" [f1ce, f2ce] id).isSome
        = (scanAggregate "t" [f2ce, f1ce] id).isSome)
    ∧ (∀ id, discSizes (scanAggregate "t" [f1ce, f2ce] id)
        = discSizes (scanAggregate "t" [f2ce, f1ce] id))
    ∧ (∀ id s, (discPaths (scanAggregate "t" [f1ce, f2ce] id) s).Perm
        (discPaths (scanAggregate "t" [f2ce, f1ce] id) s))
    ∧ ((∀ f g, f ∈ [f1ce, f2ce] → g ∈ [f1ce, f2ce] →
          iconId "t" f = iconId "t" g → f.xdg = g.xdg) →
        ∀ id, discXdg (scanAggregate "t" [f1ce, f2ce] id)
          = discXdg (scanAggregate "t" [f2ce, f1ce] id)) :=
  scan_aggregation_order_independent_up_to_paths "t" [f1ce, f2ce] [f2ce, f1ce]
    (List.Perm.swap f2ce f1ce [])

end IconDistillery
